import Mathlib

/-!
Verification development for the RSS subscription/poll/dedup engine
(`main.py`, `formatters.py`, `format_handler.py`).

The Python source is shallowly embedded below.  Machine integers are `Int`
(Python ints are unbounded), dictionaries are association lists preserving
insertion order, and fallible external collaborators (HTTP fetch, the
stdlib regular-expression engine `re`, `html.unescape`, `time.mktime` /
`time.strftime`) are abstracted as explicit parameters or `Option`-valued
inputs, exactly at the boundary where the source calls into them.
String scanning helpers are implemented on `List Char` so that every
definition reduces in the kernel.
-/

namespace MyRSS

/-- Python string truthiness fallback `a or b` for strings: `a` if non-empty else `b`. -/
def pyOr (a b : String) : String := if a ≠ "" then a else b

/-- Substring test on character lists: `needle` occurs contiguously in `hay`
(model of Python `needle in hay` for strings). -/
def infixOf (needle : List Char) : List Char → Bool
  | [] => needle.isEmpty
  | c :: t => needle.isPrefixOf (c :: t) || infixOf needle t

/-- Model of Python `sub in s` for strings. -/
def strContains (s sub : String) : Bool := infixOf sub.data s.data

/-- Model of Python `s.startswith(p)`. -/
def strStartsWith (s p : String) : Bool := p.data.isPrefixOf s.data

/-- Model of Python `s.endswith(p)`. -/
def strEndsWith (s p : String) : Bool := p.data.reverse.isPrefixOf s.data.reverse

/-- Split a character list on a separator character, keeping empty segments
(model of Python `s.split(sep)` for a one-character separator). -/
def splitOnChar (sep : Char) : List Char → List (List Char)
  | [] => [[]]
  | c :: t =>
    let r := splitOnChar sep t
    if c == sep then [] :: r
    else
      match r with
      | [] => [[c]]
      | h :: t2 => (c :: h) :: t2

/-- Characters removed by Python `str.strip()` (ASCII whitespace; the full
Unicode whitespace set of the stdlib is not needed by any feed field here). -/
def isSpaceChar (c : Char) : Bool :=
  c == ' ' || c == '\t' || c == '\r' || c == '\n' || c == '\x0b' || c == '\x0c'

/-- Model of Python `s.strip()`. -/
def trimChars (cs : List Char) : List Char :=
  ((cs.dropWhile isSpaceChar).reverse.dropWhile isSpaceChar).reverse

/-- Model of Python `sep.join(parts)`. -/
def joinSep (sep : String) : List String → String
  | [] => ""
  | [x] => x
  | x :: y :: t => x ++ sep ++ joinSep sep (y :: t)

/-- One-pass removal of complete `<...>` spans, the effect of
`re.sub(r'<[^>]+>', '', text)`: at each `<`, a span of one or more
non-`>` characters followed by `>` is removed; a `<` with no such
closing `>` (or an immediate `>`) is kept verbatim.  The pending
candidate tag body (characters after an open `<`, reversed) is carried
in the accumulator. -/
def removeTagsGo (pend : Option (List Char)) : List Char → List Char
  | [] =>
    match pend with
    | none => []
    | some acc => '<' :: acc.reverse
  | c :: rest =>
    match pend with
    | none =>
      if c == '<' then removeTagsGo (some []) rest
      else c :: removeTagsGo none rest
    | some acc =>
      if c == '>' then
        if acc.isEmpty then '<' :: '>' :: removeTagsGo none rest
        else removeTagsGo none rest
      else removeTagsGo (some (c :: acc)) rest

/-- Removal of HTML tags from a string, as `re.sub(r'<[^>]+>', '', text)`. -/
def removeTags (s : String) : String := String.mk (removeTagsGo none s.data)

/-- Embedding of `formatters.strip_html`: decode HTML entities (the stdlib
`html.unescape` is passed in as the abstract collaborator `unescape`),
remove tag spans, then drop blank lines and trim each remaining line,
rejoining with single newlines. -/
def strip_html (unescape : String → String) (text : String) : String :=
  if text = "" then ""
  else
    let t := removeTags (unescape text)
    joinSep "\n"
      (((splitOnChar '\n' t.data).map (fun l => String.mk (trimChars l))).filter
        (fun s => s ≠ ""))

/-- Observations of a Python `time.struct_time` used by the source: its
`time.mktime` value (epoch seconds) and its `time.strftime` rendering. -/
structure TimeStruct where
  mktime : Int
  strftime : String
deriving DecidableEq

/-- One attachment of a feed entry (`feedparser` enclosure dict; only the
`href` key is read by the source). -/
structure Enclosure where
  href : Option String
deriving DecidableEq

/-- A raw parsed feed entry: the `feedparser` entry keys read by the source.
`none` models an absent key. -/
structure Entry where
  title : Option String
  link : Option String
  entryId : Option String
  description : Option String
  summary : Option String
  enclosures : List Enclosure
  published_parsed : Option TimeStruct
  updated_parsed : Option TimeStruct
deriving DecidableEq

/-- A raw parsed feed: the `feedparser` result fields read by the source. -/
structure Feed where
  feedTitle : Option String
  feedDescription : Option String
  entries : List Entry
  bozo : Bool
deriving DecidableEq

/-- Embedding of `formatters.RSSItem` (the canonical item shape). -/
structure RSSItem where
  chan_title : String
  title : String
  link : String
  description : String
  pub_date : String
  pub_date_timestamp : Int
  extra : String := ""
deriving DecidableEq

/-- Fields returned by a formatter's `_extract_fields`. -/
structure Fields where
  title : String
  link : String
  description : String
  extra : String
deriving DecidableEq

/-- Python `entry.get("published_parsed") or entry.get("updated_parsed")`
(a present `struct_time` is truthy). -/
def firstTime (e : Entry) : Option TimeStruct :=
  match e.published_parsed with
  | some t => some t
  | none => e.updated_parsed

/-- The normalized publish timestamp an entry receives: `mktime` of its
published-or-updated time, or `0` when neither parses. -/
def entryTs (e : Entry) : Int :=
  match firstTime e with
  | some t => t.mktime
  | none => 0

/-- The site-specific formatter classes of `formatters.py`, as a tagged
variant set (`DefaultFormatter` and its four subclasses). -/
inductive FormatterKind
  | default
  | nyaa
  | dmhy
  | acgnx
  | mikan
deriving DecidableEq

/-- Characters after the first `?` of the pre-fragment part of a URL
(the `query` component of `urllib.parse.urlparse`). -/
def queryChars : List Char → List Char
  | [] => []
  | c :: t =>
    if c == '#' then []
    else if c == '?' then t.takeWhile (fun d => d != '#')
    else queryChars t

/-- Embedding of `formatters._get_url_param`: first value bound to `key`
in the URL's query string, `""` when absent.  As in `urllib.parse.parse_qs`,
fields without `=` and fields with a blank value are dropped; the stdlib's
percent-decoding of values is not modelled (no claim depends on decoded
parameter text). -/
def _get_url_param (url key : String) : String :=
  let fields := splitOnChar '&' (queryChars url.data)
  let hit := fields.findSome? (fun f =>
    let k := f.takeWhile (fun c => c != '=')
    if k.length < f.length && k == key.data then
      let v := f.drop (k.length + 1)
      if v.isEmpty then none else some (String.mk v)
    else none)
  hit.getD ""

/-- Characters of `hay` before the first occurrence of `needle`
(Python `hay.split(needle)[0]`). -/
def takeBeforeSub (needle : List Char) : List Char → List Char
  | [] => []
  | c :: t =>
    if needle.isPrefixOf (c :: t) then []
    else c :: takeBeforeSub needle t

/-- First enclosure `href` starting with `magnet:`, truncated at the first
`&tr=` (the `DmhyFormatter._extract_fields` attachment scan). -/
def firstMagnet : List Enclosure → String
  | [] => ""
  | enc :: rest =>
    let href := enc.href.getD ""
    if strStartsWith href "magnet:" then
      String.mk (takeBeforeSub "&tr=".data href.data)
    else firstMagnet rest

/-- First enclosure `href` ending in `.torrent`
(the `MikanFormatter._extract_fields` attachment scan). -/
def firstTorrent : List Enclosure → String
  | [] => ""
  | enc :: rest =>
    let href := enc.href.getD ""
    if strEndsWith href ".torrent" then href
    else firstTorrent rest

/-- Embedding of `DefaultFormatter._extract_fields` and the four site
overrides (`Nyaa`, `Dmhy`, `Acgnx` inheriting `Dmhy`, `Mikan`). -/
def extract_fields (fk : FormatterKind) (entry : Entry) : Fields :=
  match fk with
  | .default =>
    { title := entry.title.getD "无标题"
      link := entry.link.getD ""
      description := pyOr (entry.description.getD "") (entry.summary.getD "")
      extra := "" }
  | .nyaa =>
    { title := entry.title.getD "无标题"
      link := pyOr (entry.entryId.getD "") (entry.link.getD "")
      description := ""
      extra := entry.link.getD "" }
  | .dmhy =>
    { title := entry.title.getD "无标题"
      link := entry.link.getD ""
      description := entry.description.getD ""
      extra := firstMagnet entry.enclosures }
  | .acgnx =>
    { title := entry.title.getD "无标题"
      link := entry.link.getD ""
      description := entry.description.getD ""
      extra := firstMagnet entry.enclosures }
  | .mikan =>
    { title := entry.title.getD "无标题"
      link := entry.link.getD ""
      description := entry.description.getD ""
      extra := firstTorrent entry.enclosures }

/-- Embedding of `get_chan_title` (default plus the site overrides). -/
def get_chan_title (fk : FormatterKind) (feed : Feed) (url : String) : String :=
  match fk with
  | .default => feed.feedTitle.getD "未知频道"
  | .nyaa =>
    let q := _get_url_param url "q"
    if q ≠ "" then "Nyaa | " ++ q else "Nyaa"
  | .dmhy =>
    let kw := _get_url_param url "keyword"
    if kw ≠ "" then "DMHY - " ++ kw else feed.feedTitle.getD "動漫花園"
  | .acgnx =>
    let kw := _get_url_param url "keyword"
    if kw ≠ "" then "AcgnX - " ++ kw else feed.feedTitle.getD "末日動漫資源庫"
  | .mikan => feed.feedTitle.getD "未知频道"

/-- Embedding of `DefaultFormatter.parse_entry` (shared by all formatter
subclasses): extract fields, parse the publish time from the
published-or-updated structured field, strip markup from the description
and truncate it to `desc_max_len` characters with a `"..."` marker. -/
def parse_entry (unescape : String → String) (fk : FormatterKind) (entry : Entry)
    (chan_title : String) (desc_max_len : Nat) : RSSItem :=
  let fields := extract_fields fk entry
  let pub := firstTime entry
  let pub_ts : Int :=
    match pub with
    | some t => t.mktime
    | none => 0
  let pub_date : String :=
    match pub with
    | some t => t.strftime
    | none => ""
  let desc0 := strip_html unescape fields.description
  let desc :=
    if desc0 ≠ "" ∧ desc0.data.length > desc_max_len then
      String.mk (desc0.data.take desc_max_len) ++ "..."
    else desc0
  { chan_title := chan_title
    title := fields.title
    link := fields.link
    description := desc
    pub_date := pub_date
    pub_date_timestamp := pub_ts
    extra := fields.extra }

/-- Characters allowed in a URL scheme by `urllib.parse.urlsplit`. -/
def isSchemeChar (c : Char) : Bool :=
  c.isAlpha || c.isDigit || c == '+' || c == '-' || c == '.'

/-- Strip a leading `scheme:` when the part before the first `:` is a
non-empty run of scheme characters starting with a letter, as
`urllib.parse.urlsplit` does. -/
def dropScheme (cs : List Char) : List Char :=
  let pre := cs.takeWhile (fun c => c != ':')
  if pre.length < cs.length && !pre.isEmpty
      && (pre.headD ' ').isAlpha && pre.all isSchemeChar then
    cs.drop (pre.length + 1)
  else cs

/-- Model of `urllib.parse.urlparse(url).netloc`: the characters after a
leading `//` (once any scheme is stripped) up to the first `/`, `?` or `#`;
`""` when the URL has no `//` authority part.  `none` models the
`ValueError` the stdlib raises on a netloc with unbalanced square
brackets (the invalid-IPv6 check), which `get_formatter` catches. -/
def netlocOpt (url : String) : Option String :=
  let cs := dropScheme url.data
  if cs.take 2 = ['/', '/'] then
    let n := (cs.drop 2).takeWhile (fun c => c != '/' && c != '?' && c != '#')
    if (n.contains '[' != n.contains ']') then none
    else some (String.mk n)
  else some ""

/-- ASCII lowercasing, the effect of Python `.lower()` on a host name. -/
def asciiLower (s : String) : String := String.mk (s.data.map Char.toLower)

/-- The `FORMATTERS` registry of `formatters.py`, in declaration order. -/
def FORMATTERS : List (String × FormatterKind) :=
  [("nyaa.si", .nyaa), ("share.dmhy.org", .dmhy),
   ("share.acgnx.se", .acgnx), ("mikan.tangbai.cc", .mikan)]

/-- The domain-matching test of `get_formatter`:
`domain == key or domain.endswith("." + key)`. -/
def matchesKey (domain key : String) : Bool :=
  domain == key || strEndsWith domain ("." ++ key)

/-- The registry scan of `get_formatter`: first key matching the domain
wins, otherwise the default formatter. -/
def lookupFormatter : List (String × FormatterKind) → String → FormatterKind
  | [], _ => .default
  | (k, f) :: rest, d => if matchesKey d k then f else lookupFormatter rest d

/-- Embedding of `formatters.get_formatter`: lowercased netloc matched
against the registry by exact-or-dot-suffix; a parse error (the caught
exception branch) and an unmatched host both yield the default formatter. -/
def get_formatter (url : String) : FormatterKind :=
  match netlocOpt url with
  | none => .default
  | some d => lookupFormatter FORMATTERS (asciiLower d)

/-- The handler functions of `format_handler.py`, as tags. -/
inductive Handler
  | nyaa
  | dmhy
  | handlerDefault
deriving DecidableEq

/-- The `DOMAIN_HANDLERS` registry of `format_handler.py`, in order. -/
def DOMAIN_HANDLERS : List (String × Handler) :=
  [("nyaa.si", .nyaa), ("share.dmhy.org", .dmhy)]

/-- The handler scan of `format_handler.format_item`: the first registered
key that occurs as a substring anywhere in the URL wins (`domain in url`),
falling back to the default handler. -/
def selectHandler (url : String) : Handler :=
  match DOMAIN_HANDLERS.find? (fun p => strContains url p.1) with
  | some p => p.2
  | none => .handlerDefault

/-- Embedding of `format_handler.format_nyaa`. -/
def format_nyaa (chan_title title link description pub_date : String) : String :=
  let size :=
    if description ≠ "" ∧ strContains description "|" then
      let parts := (splitOnChar '|' description.data).map
        (fun p => String.mk (trimChars p))
      if parts.length ≥ 3 then (parts.get? 2).getD "" else ""
    else ""
  let lines := ["[Nyaa] " ++ title]
  let lines := if size ≠ "" then lines ++ ["大小: " ++ size] else lines
  let lines := lines ++ [link]
  let lines := if pub_date ≠ "" then lines ++ ["时间: " ++ pub_date] else lines
  joinSep "\n" lines

/-- Embedding of `format_handler.format_dmhy`. -/
def format_dmhy (chan_title title link description pub_date : String) : String :=
  let lines := ["[动漫花园] " ++ title, link]
  let lines := if pub_date ≠ "" then lines ++ ["时间: " ++ pub_date] else lines
  joinSep "\n" lines

/-- Embedding of `format_handler.format_default`. -/
def format_default (chan_title title link description pub_date : String) : String :=
  let lines := ["[RSS] " ++ chan_title, "标题: " ++ title, "链接: " ++ link]
  let lines := if pub_date ≠ "" then lines ++ ["时间: " ++ pub_date] else lines
  let lines := if description ≠ "" then lines ++ ["---\n" ++ description] else lines
  joinSep "\n" lines

/-- Embedding of `format_handler.format_item`: dispatch on the first
`DOMAIN_HANDLERS` key contained in the URL, then apply that handler. -/
def format_item (url chan_title title link description pub_date : String) : String :=
  match selectHandler url with
  | .nyaa => format_nyaa chan_title title link description pub_date
  | .dmhy => format_dmhy chan_title title link description pub_date
  | .handlerDefault => format_default chan_title title link description pub_date

/-- Embedding of `MyRSSPlugin._filter_items`: the stdlib collaborator
`compileRe` models `re.compile(pattern, re.IGNORECASE)` followed by
`.search` on a title — `none` models `re.error` (an invalid pattern), and
`some s` yields the compiled case-insensitive search predicate. -/
def _filter_items (compileRe : String → Option (String → Bool))
    (items : List RSSItem) (pattern : String) : List RSSItem :=
  if pattern = "" then items
  else
    match compileRe pattern with
    | some s => items.filter (fun item => !s item.title)
    | none => items

/-- The entry loop of `_poll_rss`: normalize each entry in feed order,
skip items whose timestamp is `<= after_ts`, append qualifying items and
stop as soon as the running count reaches `max_items` (the count check
runs after the append, as in the source). -/
def collectItems (parse : Entry → RSSItem) (after_ts : Int) (max_items : Nat) :
    List Entry → Nat → List RSSItem
  | [], _ => []
  | e :: rest, count =>
    let item := parse e
    if item.pub_date_timestamp ≤ after_ts then
      collectItems parse after_ts max_items rest count
    else if count + 1 ≥ max_items then [item]
    else item :: collectItems parse after_ts max_items rest (count + 1)

/-- Embedding of `MyRSSPlugin._poll_rss`.  The fetched-and-parsed feed is
the input `fetched` (`none` models a failed `_fetch_feed`: non-200 status
or transport error, which yields an empty result). -/
def _poll_rss (unescape : String → String) (desc_max_len : Nat)
    (fetched : Option Feed) (url : String) (max_items : Nat)
    (after_ts : Int) : List RSSItem :=
  match fetched with
  | none => []
  | some feed =>
    let fk := get_formatter url
    let chan_title := get_chan_title fk feed url
    collectItems (fun e => parse_entry unescape fk e chan_title desc_max_len)
      after_ts max_items feed.entries 0

/-- One item's text block in `MyRSSPlugin._format_items`, built by the
same incremental appends as the source loop body. -/
def formatOne (item : RSSItem) : String :=
  let text := "[RSS] " ++ item.chan_title ++ "\n标题: " ++ item.title
    ++ "\n链接: " ++ item.link
  let text := if item.pub_date ≠ "" then text ++ "\n时间: " ++ item.pub_date else text
  let text := if item.description ≠ "" then text ++ "\n---\n" ++ item.description else text
  let text := if item.extra ≠ "" then text ++ "\n额外: " ++ item.extra else text
  text

/-- Embedding of `MyRSSPlugin._format_items`: each item's block, joined
with a blank-line separator. -/
def _format_items (items : List RSSItem) : String :=
  joinSep "\n\n" (items.map formatOne)

/-- One subscriber's persisted record (the per-user dict stored under
`data[url]["subscribers"][user]`). -/
structure SubInfo where
  cron_expr : String
  filter : String
  last_update : Int
  latest_link : String
deriving DecidableEq

/-- The per-feed channel metadata (`data[url]["info"]`). -/
structure ChanInfo where
  title : String
  description : String
deriving DecidableEq

/-- One feed's record in the store (`data[url]`). -/
structure ChannelData where
  info : ChanInfo
  subscribers : List (String × SubInfo)
deriving DecidableEq

/-- The persisted store `self.data`: feed URL to channel record, as an
insertion-ordered association list (Python dict semantics). -/
abbrev Store := List (String × ChannelData)

/-- Association-list lookup (Python `d.get(k)`). -/
def lookupA {α : Type} (m : List (String × α)) (k : String) : Option α :=
  match m with
  | [] => none
  | (k2, v) :: rest => if k2 == k then some v else lookupA rest k

/-- Association-list update (Python `d[k] = v`): replace in place,
else append, preserving insertion order. -/
def setA {α : Type} (m : List (String × α)) (k : String) (v : α) :
    List (String × α) :=
  match m with
  | [] => [(k, v)]
  | (k2, v2) :: rest => if k2 == k then (k, v) :: rest else (k2, v2) :: setA rest k v

/-- The subscriber record stored for `(url, user)`, if any
(`self.data.get(url, {}).get("subscribers", {}).get(user)`). -/
def subLookup (store : Store) (url user : String) : Option SubInfo :=
  match lookupA store url with
  | none => none
  | some chan => lookupA chan.subscribers user

/-- The stored watermark of `(url, user)` (`sub.get("last_update", 0)`). -/
def wmOf (store : Store) (url user : String) : Int :=
  match subLookup store url user with
  | some sub => sub.last_update
  | none => 0

/-- The stored `latest_link` of `(url, user)`, `""` when absent. -/
def linkOf (store : Store) (url user : String) : String :=
  match subLookup store url user with
  | some sub => sub.latest_link
  | none => ""

/-- Python `max(item.pub_date_timestamp for item in rss_items)`; only ever
applied to a non-empty list in the source (`max` of an empty generator
would raise). -/
def maxTs : List RSSItem → Int
  | [] => 0
  | i :: rest => rest.foldl (fun a x => max a x.pub_date_timestamp) i.pub_date_timestamp

/-- Embedding of `MyRSSPlugin._cron_callback` as a store transformer.
Returns the new store together with the list of persisted snapshots
(`_save_data` calls).  A missing subscription or an empty filtered item
list is a silent no-op; otherwise the message is delivered (delivery is
fire-and-forget and leaves the state untouched), the watermark advances to
the maximum delivered timestamp when that exceeds it, `latest_link` is
set to the first delivered item's link, and the state is saved. -/
def cron_callback (unescape : String → String)
    (compileRe : String → Option (String → Bool))
    (desc_max_len max_items : Nat) (fetched : Option Feed)
    (store : Store) (url user : String) : Store × List Store :=
  match lookupA store url with
  | none => (store, [])
  | some chan =>
    match lookupA chan.subscribers user with
    | none => (store, [])
    | some sub =>
      let polled := _poll_rss unescape desc_max_len fetched url max_items sub.last_update
      let rss_items := _filter_items compileRe polled sub.filter
      match rss_items with
      | [] => (store, [])
      | first :: _ =>
        let max_ts := maxTs rss_items
        let lu := if max_ts > sub.last_update then max_ts else sub.last_update
        let sub2 := { sub with last_update := lu, latest_link := first.link }
        let store2 := setA store url { chan with subscribers := setA chan.subscribers user sub2 }
        (store2, [store2])

/-- A sequence of scheduled firings for one `(url, user)` pair, each with
the feed snapshot fetched at that firing (the Scheduler re-fires
`_cron_callback` on each cron trigger). -/
def run_cycles (unescape : String → String)
    (compileRe : String → Option (String → Bool))
    (desc_max_len max_items : Nat) (url user : String)
    (feeds : List (Option Feed)) (store : Store) : Store :=
  match feeds with
  | [] => store
  | f :: rest =>
    run_cycles unescape compileRe desc_max_len max_items url user rest
      (cron_callback unescape compileRe desc_max_len max_items f store url user).1

/-- Outcome tag of the `add` command (which user-facing reply was sent). -/
inductive AddOutcome
  | updated
  | unreachable
  | notFeed
  | subscribed
deriving DecidableEq

/-- Embedding of `MyRSSPlugin.add_sub` from the already-subscribed check
onward (cron and filter validation precede this point against external
collaborators; a successful add presumes they passed).  `now` is `int(time.time())` and
`fetched` the result of `_fetch_feed`.  Returns the new store, the
persisted snapshots and the outcome. -/
def add_sub (now : Int) (fetched : Option Feed) (store : Store)
    (url user cron_expr filter_pattern : String) : Store × List Store × AddOutcome :=
  match subLookup store url user with
  | some existing =>
    let sub2 := { existing with cron_expr := cron_expr, filter := filter_pattern }
    let chan := (lookupA store url).getD { info := { title := "", description := "" }, subscribers := [] }
    let store2 := setA store url { chan with subscribers := setA chan.subscribers user sub2 }
    (store2, [store2], .updated)
  | none =>
    match fetched with
    | none => (store, [], .unreachable)
    | some feed =>
      if feed.bozo && feed.entries.isEmpty then (store, [], .notFeed)
      else
        let chan_title := feed.feedTitle.getD "未知频道"
        let chan_desc := pyOr (feed.feedDescription.getD "") "无描述"
        let seeded :=
          match feed.entries with
          | [] => (now, "")
          | e :: _ =>
            let ts := match firstTime e with
              | some t => t.mktime
              | none => now
            (ts, e.link.getD "")
        let chan0 :=
          match lookupA store url with
          | some c => c
          | none => { info := { title := chan_title, description := chan_desc }, subscribers := [] }
        let sub : SubInfo :=
          { cron_expr := cron_expr, filter := filter_pattern,
            last_update := seeded.1, latest_link := seeded.2 }
        let store2 := setA store url { chan0 with subscribers := setA chan0.subscribers user sub }
        (store2, [store2], .subscribed)

/-- Embedding of `MyRSSPlugin._get_user_subs`: the feeds this user
subscribes to, in store order. -/
def _get_user_subs (store : Store) (user : String) : List (String × ChannelData) :=
  store.filter (fun p => (lookupA p.2.subscribers user).isSome)

/-- Embedding of `MyRSSPlugin.get_latest` (the `get` command) as a store
transformer: an immediate pull with `after_ts = 0` for the subscription at
the given index, filtered and rendered.  Returns the (unchanged) store,
the persisted snapshots (none: the command never calls `_save_data`) and
the reply text. -/
def get_latest (unescape : String → String)
    (compileRe : String → Option (String → Bool))
    (desc_max_len max_items : Nat) (fetchEnv : String → Option Feed)
    (store : Store) (user : String) (idx : Int) : Store × List Store × String :=
  let subs := _get_user_subs store user
  if idx < 0 || (subs.length : Int) ≤ idx then
    (store, [], "索引无效，请使用 /rss list 查看。")
  else
    match subs.get? idx.toNat with
    | none => (store, [], "")
    | some (url, info) =>
      match lookupA info.subscribers user with
      | none => (store, [], "")
      | some sub =>
        let rss_items := _poll_rss unescape desc_max_len (fetchEnv url) url max_items 0
        let rss_items := _filter_items compileRe rss_items sub.filter
        if rss_items.isEmpty then (store, [], "暂无内容。")
        else (store, [], _format_items rss_items)

/-- Every item the poll loop collects has a timestamp strictly above the
watermark: the loop skips any entry with `pub_date_timestamp <= after_ts`. -/
theorem mem_collectItems_gt (parse : Entry → RSSItem) (after_ts : Int) (mi : Nat) :
    ∀ (entries : List Entry) (count : Nat) (item : RSSItem),
      item ∈ collectItems parse after_ts mi entries count →
      after_ts < item.pub_date_timestamp := by
  intro entries
  induction entries with
  | nil => intro count item h; simp [collectItems] at h
  | cons e rest ih =>
    intro count item h
    simp only [collectItems] at h
    by_cases hle : (parse e).pub_date_timestamp ≤ after_ts
    · rw [if_pos hle] at h
      exact ih count item h
    · rw [if_neg hle] at h
      by_cases hc : count + 1 ≥ mi
      · rw [if_pos hc] at h
        simp only [List.mem_singleton] at h
        subst h
        exact not_le.mp hle
      · rw [if_neg hc] at h
        rcases List.mem_cons.mp h with h1 | h2
        · subst h1; exact not_le.mp hle
        · exact ih (count + 1) item h2

/-- Every item `_poll_rss` returns has a timestamp strictly above the
watermark it was called with. -/
theorem mem_poll_gt (ue : String → String) (dml : Nat) (fetched : Option Feed)
    (url : String) (mi : Nat) (after_ts : Int) (item : RSSItem)
    (h : item ∈ _poll_rss ue dml fetched url mi after_ts) :
    after_ts < item.pub_date_timestamp := by
  cases fetched with
  | none => simp [_poll_rss] at h
  | some feed =>
    simp only [_poll_rss] at h
    exact mem_collectItems_gt _ _ _ _ _ _ h

/-- The poll loop yields nothing when every entry's normalized timestamp
is at or below the watermark. -/
theorem collectItems_eq_nil (parse : Entry → RSSItem) (after_ts : Int) (mi : Nat) :
    ∀ (entries : List Entry) (count : Nat),
      (∀ e ∈ entries, (parse e).pub_date_timestamp ≤ after_ts) →
      collectItems parse after_ts mi entries count = [] := by
  intro entries
  induction entries with
  | nil => intro count _; simp [collectItems]
  | cons e rest ih =>
    intro count h
    simp only [collectItems]
    rw [if_pos (h e (List.mem_cons_self e rest))]
    exact ih count (fun e2 he2 => h e2 (List.mem_cons_of_mem e he2))

/-- The normalized item of an entry carries exactly `entryTs` of the entry
as its publish timestamp, for every formatter. -/
theorem parse_entry_ts (ue : String → String) (fk : FormatterKind) (e : Entry)
    (ct : String) (dml : Nat) :
    (parse_entry ue fk e ct dml).pub_date_timestamp = entryTs e := by
  cases h : firstTime e <;> simp [parse_entry, entryTs, h]

/-- Polling a feed whose entries all sit at or below the watermark
returns nothing. -/
theorem poll_eq_nil (ue : String → String) (dml : Nat) (feed : Feed)
    (url : String) (mi : Nat) (after_ts : Int)
    (h : ∀ e ∈ feed.entries, entryTs e ≤ after_ts) :
    _poll_rss ue dml (some feed) url mi after_ts = [] := by
  simp only [_poll_rss]
  exact collectItems_eq_nil _ _ _ _ _
    (fun e he => by rw [parse_entry_ts]; exact h e he)

/-- Filtering never invents items: the filtered list is a sublist of its
input in every branch of `_filter_items`. -/
theorem mem_filter_items (cre : String → Option (String → Bool))
    (items : List RSSItem) (p : String) (x : RSSItem)
    (h : x ∈ _filter_items cre items p) : x ∈ items := by
  simp only [_filter_items] at h
  by_cases hp : p = ""
  · rwa [if_pos hp] at h
  · rw [if_neg hp] at h
    cases hc : cre p with
    | none => rwa [hc] at h
    | some s => rw [hc] at h; exact List.mem_of_mem_filter h

/-- Lookup after an association-list update at the same key sees the new
value. -/
theorem lookupA_setA_self {α : Type} (m : List (String × α)) (k : String) (v : α) :
    lookupA (setA m k v) k = some v := by
  induction m with
  | nil => simp [setA, lookupA]
  | cons p rest ih =>
    obtain ⟨k2, v2⟩ := p
    by_cases h : k2 == k
    · simp [setA, lookupA, h]
    · simp only [setA, lookupA]
      rw [if_neg h, lookupA]
      rw [if_neg h]
      exact ih

/-- A fold of `max` never drops below its initial accumulator. -/
theorem foldl_max_init_le {α : Type} (f : α → Int) :
    ∀ (l : List α) (a : Int), a ≤ l.foldl (fun acc x => max acc (f x)) a := by
  intro l
  induction l with
  | nil => intro a; exact le_refl a
  | cons x rest ih =>
    intro a
    calc a ≤ max a (f x) := le_max_left _ _
    _ ≤ _ := ih (max a (f x))

/-- A strict lower bound below the accumulator and every element stays
below the fold of `max`. -/
theorem foldl_max_gt {α : Type} (f : α → Int) (b : Int) :
    ∀ (l : List α) (a : Int), b < a →
      b < l.foldl (fun acc x => max acc (f x)) a := by
  intro l
  induction l with
  | nil => intro a h; exact h
  | cons x rest ih =>
    intro a h
    exact ih (max a (f x)) (lt_of_lt_of_le h (le_max_left _ _))

/-- A fold of `max` over elements all at or below the accumulator leaves
the accumulator unchanged. -/
theorem foldl_max_eq {α : Type} (f : α → Int) :
    ∀ (l : List α) (a : Int), (∀ x ∈ l, f x ≤ a) →
      l.foldl (fun acc x => max acc (f x)) a = a := by
  intro l
  induction l with
  | nil => intro a _; rfl
  | cons x rest ih =>
    intro a h
    simp only [List.foldl_cons]
    rw [max_eq_left (h x (List.mem_cons_self x rest))]
    exact ih a (fun y hy => h y (List.mem_cons_of_mem x hy))

/-- A strict lower bound on every timestamp of a non-empty item list is a
strict lower bound on `maxTs`. -/
theorem maxTs_gt (b : Int) (first : RSSItem) (rest : List RSSItem)
    (h : ∀ x ∈ first :: rest, b < x.pub_date_timestamp) :
    b < maxTs (first :: rest) := by
  simp only [maxTs]
  exact foldl_max_gt _ b rest first.pub_date_timestamp
    (h first (List.mem_cons_self first rest))

/-- Scanning a registry in which no key matches the domain falls through
to the default formatter. -/
theorem lookupFormatter_eq_default (reg : List (String × FormatterKind))
    (d : String) (h : ∀ p ∈ reg, matchesKey d p.1 = false) :
    lookupFormatter reg d = .default := by
  induction reg with
  | nil => rfl
  | cons p rest ih =>
    obtain ⟨k, f⟩ := p
    simp only [lookupFormatter]
    rw [h (k, f) (List.mem_cons_self _ _)]
    simp only [Bool.false_eq_true, if_false]
    exact ih (fun q hq => h q (List.mem_cons_of_mem _ hq))


/-- Concrete feed URL used by witnesses; its host matches no registered
formatter key, so the default formatter applies. -/
def urlEx : String := "http://example.com/rss"

/-- A concrete entry dated at epoch second `n` with link `lk`. -/
def datedEntry (n : Int) (lk : String) : Entry :=
  { title := some "t", link := some lk, entryId := none, description := none,
    summary := none, enclosures := [], published_parsed := some ⟨n, "d"⟩,
    updated_parsed := none }

/-- A concrete entry carrying no parseable date at all. -/
def undatedEntry : Entry :=
  { title := some "t", link := some "http://example.com/u", entryId := none,
    description := none, summary := none, enclosures := [],
    published_parsed := none, updated_parsed := none }

/-- A concrete feed in conventional newest-first order (300, 200, 100). -/
def feedNF : Feed :=
  { feedTitle := some "Chan", feedDescription := none,
    entries := [datedEntry 300 "http://example.com/3",
                datedEntry 200 "http://example.com/2",
                datedEntry 100 "http://example.com/1"],
    bozo := false }

/-- A concrete feed in oldest-first order (100, 200): its first entry is
not the one with the maximal timestamp. -/
def feedOF : Feed :=
  { feedTitle := some "Chan", feedDescription := none,
    entries := [datedEntry 100 "http://example.com/1",
                datedEntry 200 "http://example.com/2"],
    bozo := false }

/-- A concrete feed whose sole entry is undated. -/
def feedU : Feed :=
  { feedTitle := some "Chan", feedDescription := none,
    entries := [undatedEntry], bozo := false }

/-- The normalized item produced for `datedEntry n lk` under the default
formatter with channel title `Chan`. -/
def itemAt (n : Int) (lk : String) : RSSItem :=
  parse_entry id .default (datedEntry n lk) "Chan" 200

/-- C3: every item returned by `poll(url, strategy, N, T)` has
`publishTimestamp > T`; no returned item ever has `publishTimestamp <= T`
(the loop in `_poll_rss` skips any normalized item at or below the
watermark). -/
theorem poll_strict_novelty (ue : String → String) (dml : Nat)
    (fetched : Option Feed) (url : String) (mi : Nat) (after_ts : Int)
    (item : RSSItem) (h : item ∈ _poll_rss ue dml fetched url mi after_ts) :
    item.pub_date_timestamp > after_ts :=
  mem_poll_gt ue dml fetched url mi after_ts item h

/-- Witness for `poll_strict_novelty` at a concrete feed: polling the
newest-first feed above watermark 150 returns the item dated 300, whose
timestamp indeed exceeds 150. -/
theorem poll_strict_novelty_witness :
    itemAt 300 "http://example.com/3" ∈ _poll_rss id 200 (some feedNF) urlEx 5 150
    ∧ (itemAt 300 "http://example.com/3").pub_date_timestamp > 150 :=
  ⟨by decide, poll_strict_novelty id 200 (some feedNF) urlEx 5 150 _ (by decide)⟩

/-- C1 counterexample: an entry with no parseable date normalizes to
timestamp 0, yet an unfiltered pull with `afterTimestamp = 0` (and a
non-zero item cap) does NOT surface it — the skip condition
`pub_date_timestamp <= after_ts` also fires at `0 <= 0`, so undated
entries are excluded even from zero-watermark pulls, contrary to the
claim that they appear exactly there. -/
theorem undated_never_surfaced_cex :
    firstTime undatedEntry = none
    ∧ (parse_entry id .default undatedEntry "Chan" 200).pub_date_timestamp = 0
    ∧ _poll_rss id 200 (some feedU) urlEx 5 0 = [] := by
  refine ⟨rfl, rfl, ?_⟩
  decide

/-- C1 (amended): an item whose normalized `publishTimestamp` is 0 is
never returned when the watermark is positive, and — unlike the original
claim — it is not surfaced on a zero-watermark pull either: for every
non-negative watermark, every returned item has a strictly positive
timestamp, so undated entries are never surfaced at all. -/
theorem undated_items_excluded (ue : String → String) (dml : Nat)
    (fetched : Option Feed) (url : String) (mi : Nat) (after_ts : Int)
    (hnn : 0 ≤ after_ts) (item : RSSItem)
    (h : item ∈ _poll_rss ue dml fetched url mi after_ts) :
    0 < item.pub_date_timestamp ∧ item.pub_date_timestamp ≠ 0 := by
  have hgt := mem_poll_gt ue dml fetched url mi after_ts item h
  constructor
  · exact lt_of_le_of_lt hnn hgt
  · exact ne_of_gt (lt_of_le_of_lt hnn hgt)

/-- Witness for `undated_items_excluded`: a zero-watermark pull of the
dated feed returns the item stamped 300, and the theorem yields its
positivity. -/
theorem undated_items_excluded_witness :
    (0 : Int) ≤ 0
    ∧ itemAt 300 "http://example.com/3" ∈ _poll_rss id 200 (some feedNF) urlEx 5 0
    ∧ 0 < (itemAt 300 "http://example.com/3").pub_date_timestamp :=
  ⟨by decide, by decide,
    (undated_items_excluded id 200 (some feedNF) urlEx 5 0 (by decide) _ (by decide)).1⟩

/-- Modelled from the spec's words for comparison with the code: the
maximum normalized publish timestamp over all of a feed's entries ("the
latest existing entry's timestamp — the maximum over the feed's
entries"). -/
def maxEntryTs (feed : Feed) : Int :=
  match feed.entries with
  | [] => 0
  | e :: rest => rest.foldl (fun acc x => max acc (entryTs x)) (entryTs e)

/-- C2 counterexample: adding a subscription to a reachable feed whose
entries are dated 100 then 200 (oldest first) stores watermark 100 — the
first entry's timestamp — not the maximum 200, and the immediately
following poll with that watermark returns a historical item.  The code
reads only `feed.entries[0]`. -/
theorem add_watermark_not_max_cex :
    (add_sub 9999 (some feedOF) [] urlEx "user1" "0 18 * * *" "").2.2 = .subscribed
    ∧ wmOf (add_sub 9999 (some feedOF) [] urlEx "user1" "0 18 * * *" "").1 urlEx "user1" = 100
    ∧ maxEntryTs feedOF = 200
    ∧ wmOf (add_sub 9999 (some feedOF) [] urlEx "user1" "0 18 * * *" "").1 urlEx "user1"
        ≠ maxEntryTs feedOF
    ∧ _poll_rss id 200 (some feedOF) urlEx 5 100 ≠ [] := by
  refine ⟨rfl, (by decide), (by decide), (by decide), (by decide)⟩

/-- C2 (amended): a successful add of a new subscription stores as
watermark the FIRST entry's publish timestamp when that entry carries a
parseable date (never the current clock time in that case), and persists
the state.  Only when the feed is newest-first — the first entry's
timestamp dominating all entries — does this coincide with the maximum
over the feed's entries, and then the immediately following poll with
that watermark returns no historical items. -/
theorem add_watermark_first_entry (now : Int) (store : Store)
    (url user ce fp : String) (feed : Feed) (e : Entry) (rest : List Entry)
    (t : TimeStruct)
    (hnew : subLookup store url user = none)
    (hentries : feed.entries = e :: rest)
    (ht : firstTime e = some t) :
    (add_sub now (some feed) store url user ce fp).2.2 = .subscribed
    ∧ wmOf (add_sub now (some feed) store url user ce fp).1 url user = t.mktime
    ∧ (add_sub now (some feed) store url user ce fp).2.1
        = [(add_sub now (some feed) store url user ce fp).1]
    ∧ ((∀ e2 ∈ feed.entries, entryTs e2 ≤ t.mktime) →
        wmOf (add_sub now (some feed) store url user ce fp).1 url user = maxEntryTs feed
        ∧ ∀ (ue : String → String) (dml mi : Nat),
            _poll_rss ue dml (some feed) url mi t.mktime = []) := by
  have hwm : wmOf (add_sub now (some feed) store url user ce fp).1 url user = t.mktime := by
    simp only [add_sub, hnew, hentries, ht, List.isEmpty_cons, Bool.and_false,
      Bool.false_eq_true, if_false]
    simp only [wmOf, subLookup, lookupA_setA_self]
  refine ⟨?_, hwm, ?_, ?_⟩
  · simp only [add_sub, hnew, hentries, ht, List.isEmpty_cons, Bool.and_false,
      Bool.false_eq_true, if_false]
  · simp only [add_sub, hnew, hentries, ht, List.isEmpty_cons, Bool.and_false,
      Bool.false_eq_true, if_false]
  · intro hall
    have he : entryTs e = t.mktime := by simp [entryTs, ht]
    have hmax : maxEntryTs feed = t.mktime := by
      simp only [maxEntryTs, hentries, he]
      exact foldl_max_eq _ rest t.mktime
        (fun x hx => hall x (by rw [hentries]; exact List.mem_cons_of_mem e hx))
    exact ⟨by rw [hwm, hmax], fun ue dml mi => poll_eq_nil ue dml feed url mi t.mktime hall⟩

/-- Witness for `add_watermark_first_entry`: subscribing to the
newest-first feed (300, 200, 100) stores watermark 300, which is the
maximum, and the next poll at 300 yields nothing. -/
theorem add_watermark_first_entry_witness :
    (add_sub 9999 (some feedNF) [] urlEx "user1" "c" "").2.2 = .subscribed
    ∧ wmOf (add_sub 9999 (some feedNF) [] urlEx "user1" "c" "").1 urlEx "user1" = 300
    ∧ wmOf (add_sub 9999 (some feedNF) [] urlEx "user1" "c" "").1 urlEx "user1"
        = maxEntryTs feedNF
    ∧ _poll_rss id 200 (some feedNF) urlEx 5 300 = [] := by
  have h := add_watermark_first_entry 9999 [] urlEx "user1" "c" "" feedNF
    (datedEntry 300 "http://example.com/3")
    [datedEntry 200 "http://example.com/2", datedEntry 100 "http://example.com/1"]
    ⟨300, "d"⟩ rfl rfl rfl
  have h5 := h.2.2.2 (by decide)
  exact ⟨h.1, h.2.1, h5.1, h5.2 id 200 5⟩

/-- Updating a channel's subscriber entry makes the watermark read back
the new record's `last_update`. -/
theorem wmOf_setA (store : Store) (url user : String) (chan : ChannelData)
    (sub : SubInfo) :
    wmOf (setA store url { chan with subscribers := setA chan.subscribers user sub })
      url user = sub.last_update := by
  simp [wmOf, subLookup, lookupA_setA_self]

/-- Updating a channel's subscriber entry makes `latest_link` read back
the new record's link. -/
theorem linkOf_setA (store : Store) (url user : String) (chan : ChannelData)
    (sub : SubInfo) :
    linkOf (setA store url { chan with subscribers := setA chan.subscribers user sub })
      url user = sub.latest_link := by
  simp [linkOf, subLookup, lookupA_setA_self]

/-- C4: on a scheduled firing that delivers a non-empty filtered item
list, the watermark advances to the maximum `publishTimestamp` among the
delivered items, `lastLink` becomes the first delivered item's link, and
the state is persisted; moreover the watermark never decreases on any
single firing, and across any sequence of poll cycles it is monotonically
non-decreasing. -/
theorem cron_watermark_advance (ue : String → String)
    (cre : String → Option (String → Bool)) (dml mi : Nat) (url user : String) :
    (∀ (fetched : Option Feed) (store : Store) (chan : ChannelData) (sub : SubInfo)
        (first : RSSItem) (rest : List RSSItem),
        lookupA store url = some chan →
        lookupA chan.subscribers user = some sub →
        _filter_items cre (_poll_rss ue dml fetched url mi sub.last_update) sub.filter
          = first :: rest →
        wmOf (cron_callback ue cre dml mi fetched store url user).1 url user
            = maxTs (first :: rest)
        ∧ linkOf (cron_callback ue cre dml mi fetched store url user).1 url user
            = first.link
        ∧ (cron_callback ue cre dml mi fetched store url user).2
            = [(cron_callback ue cre dml mi fetched store url user).1])
    ∧ (∀ (fetched : Option Feed) (store : Store),
        wmOf store url user
          ≤ wmOf (cron_callback ue cre dml mi fetched store url user).1 url user)
    ∧ (∀ (feeds : List (Option Feed)) (store : Store),
        wmOf store url user
          ≤ wmOf (run_cycles ue cre dml mi url user feeds store) url user) := by
  have step : ∀ (fetched : Option Feed) (store : Store),
      wmOf store url user
        ≤ wmOf (cron_callback ue cre dml mi fetched store url user).1 url user := by
    intro fetched store
    cases hc : lookupA store url with
    | none => simp [cron_callback, hc]
    | some chan =>
      cases hs : lookupA chan.subscribers user with
      | none => simp [cron_callback, hc, hs]
      | some sub =>
        cases hi : _filter_items cre (_poll_rss ue dml fetched url mi sub.last_update)
            sub.filter with
        | nil => simp [cron_callback, hc, hs, hi]
        | cons first rest =>
          have h1 : (cron_callback ue cre dml mi fetched store url user).1
              = setA store url (ChannelData.mk chan.info
                  (setA chan.subscribers user (SubInfo.mk sub.cron_expr sub.filter
                    (if maxTs (first :: rest) > sub.last_update
                      then maxTs (first :: rest) else sub.last_update)
                    first.link))) := by
            simp only [cron_callback, hc, hs, hi]
          have hwold : wmOf store url user = sub.last_update := by
            simp [wmOf, subLookup, hc, hs]
          rw [h1, hwold, wmOf_setA]
          by_cases hgt : maxTs (first :: rest) > sub.last_update
          · rw [if_pos hgt]; exact le_of_lt hgt
          · rw [if_neg hgt]
  refine ⟨?_, step, ?_⟩
  · intro fetched store chan sub first rest hc hs hi
    have hgt : sub.last_update < maxTs (first :: rest) := by
      apply maxTs_gt
      intro x hx
      have hx2 : x ∈ _filter_items cre (_poll_rss ue dml fetched url mi sub.last_update)
          sub.filter := by rw [hi]; exact hx
      exact mem_poll_gt ue dml fetched url mi sub.last_update x
        (mem_filter_items _ _ _ _ hx2)
    have hcc : cron_callback ue cre dml mi fetched store url user
        = (setA store url (ChannelData.mk chan.info
            (setA chan.subscribers user (SubInfo.mk sub.cron_expr sub.filter
              (maxTs (first :: rest)) first.link))),
           [setA store url (ChannelData.mk chan.info
            (setA chan.subscribers user (SubInfo.mk sub.cron_expr sub.filter
              (maxTs (first :: rest)) first.link)))]) := by
      simp only [cron_callback, hc, hs, hi]
      rw [if_pos hgt]
    rw [hcc]
    exact ⟨wmOf_setA store url user chan _, linkOf_setA store url user chan _, rfl⟩
  · intro feeds
    induction feeds with
    | nil => intro store; exact le_refl _
    | cons f fs ih =>
      intro store
      exact le_trans (step f store) (ih _)

/-- A concrete subscription with watermark 150 and no filter. -/
def sub150 : SubInfo :=
  { cron_expr := "0 18 * * *", filter := "", last_update := 150, latest_link := "" }

/-- A concrete channel record with `sub150` as its only subscriber. -/
def chanEx : ChannelData :=
  { info := { title := "Chan", description := "d" }, subscribers := [("user1", sub150)] }

/-- A concrete store holding one subscription to `urlEx`. -/
def store150 : Store := [(urlEx, chanEx)]

/-- A concrete regex collaborator on which every pattern fails to compile
(irrelevant to an empty filter pattern, which short-circuits). -/
def creNone : String → Option (String → Bool) := fun _ => none

/-- Witness for `cron_watermark_advance`: firing on the (300, 200, 100)
feed above watermark 150 delivers the items dated 300 and 200, advances
the watermark to 300, records the first item's link and persists once. -/
theorem cron_watermark_advance_witness :
    wmOf (cron_callback id creNone 200 5 (some feedNF) store150 urlEx "user1").1
        urlEx "user1" = 300
    ∧ linkOf (cron_callback id creNone 200 5 (some feedNF) store150 urlEx "user1").1
        urlEx "user1" = "http://example.com/3"
    ∧ (cron_callback id creNone 200 5 (some feedNF) store150 urlEx "user1").2
        = [(cron_callback id creNone 200 5 (some feedNF) store150 urlEx "user1").1] := by
  have h := (cron_watermark_advance id creNone 200 5 urlEx "user1").1 (some feedNF)
    store150 chanEx sub150 (itemAt 300 "http://example.com/3")
    [itemAt 200 "http://example.com/2"] (by decide) (by decide) (by decide)
  refine ⟨?_, ?_, h.2.2⟩
  · rw [h.1]; decide
  · rw [h.2.1]; decide

/-- C5 counterexample: the dispatcher `format_item` of `format_handler.py`
matches registry keys as raw substrings of the whole URL, so the unrelated
host `evilnyaa.si` — which matches no key by exact equality or dot-suffix —
is nonetheless dispatched to the nyaa handler instead of the default one. -/
theorem format_item_substring_cex :
    netlocOpt "http://evilnyaa.si/rss" = some "evilnyaa.si"
    ∧ matchesKey "evilnyaa.si" "nyaa.si" = false
    ∧ matchesKey "evilnyaa.si" "share.dmhy.org" = false
    ∧ selectHandler "http://evilnyaa.si/rss" = .nyaa
    ∧ format_item "http://evilnyaa.si/rss" "C" "T" "L" "" ""
        = format_nyaa "C" "T" "L" "" ""
    ∧ format_item "http://evilnyaa.si/rss" "C" "T" "L" "" ""
        ≠ format_default "C" "T" "L" "" "" := by
  refine ⟨(by decide), (by decide), (by decide), (by decide), (by decide), (by decide)⟩

/-- C5 (amended): the extraction-strategy resolver `get_formatter` matches
a registered key against the URL's host by exact equality or dot-suffix
only — `foo.bar.com` matches key `bar.com`, `evilbar.com` does not, and a
host matching no key resolves to the default strategy; the separate legacy
dispatcher `format_item` instead matches keys as substrings anywhere in
the URL, where unrelated domains can match (see the counterexample). -/
theorem strategy_resolution_suffix :
    matchesKey "foo.bar.com" "bar.com" = true
    ∧ matchesKey "evilbar.com" "bar.com" = false
    ∧ lookupFormatter [("bar.com", .mikan)] "foo.bar.com" = .mikan
    ∧ lookupFormatter [("bar.com", .mikan)] "evilbar.com" = .default
    ∧ get_formatter "http://foo.nyaa.si/rss" = .nyaa
    ∧ get_formatter "http://evilnyaa.si/rss" = .default
    ∧ (∀ (reg : List (String × FormatterKind)) (d : String),
        (∀ p ∈ reg, matchesKey d p.1 = false) → lookupFormatter reg d = .default) :=
  ⟨by decide, by decide, by decide, by decide, by decide, by decide,
   fun reg d h => lookupFormatter_eq_default reg d h⟩

/-- Witness for `strategy_resolution_suffix`: the real registry resolves
the unmatched host `example.com` to the default strategy. -/
theorem strategy_resolution_suffix_witness :
    lookupFormatter FORMATTERS "example.com" = .default
    ∧ matchesKey "foo.bar.com" "bar.com" = true :=
  ⟨strategy_resolution_suffix.2.2.2.2.2.2 FORMATTERS "example.com" (by decide),
   strategy_resolution_suffix.1⟩

/-- Each item's rendered block equals the claim's shape: the three
mandatory lines, then a conditional date line, a conditional separator
plus description, and a conditional extra line, each omitted (appending
nothing) when its field is empty. -/
theorem formatOne_eq (i : RSSItem) :
    formatOne i
      = "[RSS] " ++ i.chan_title ++ "\n标题: " ++ i.title ++ "\n链接: " ++ i.link
        ++ (if i.pub_date ≠ "" then "\n时间: " ++ i.pub_date else "")
        ++ (if i.description ≠ "" then "\n---\n" ++ i.description else "")
        ++ (if i.extra ≠ "" then "\n额外: " ++ i.extra else "") := by
  simp only [formatOne]
  split_ifs <;> simp [String.append_assoc, String.append_empty]

/-- C6: the renderer joins one block per item with a blank-line
separator; each block is `"[RSS] " + channelTitle`, a title line, a link
line, then conditionally a date line, conditionally a separator plus the
description, and conditionally an extra line — every conditional piece
contributing nothing when its field is empty, so no empty-label lines are
emitted. -/
theorem render_blocks (items : List RSSItem) :
    _format_items items
      = joinSep "\n\n" (items.map (fun i =>
          "[RSS] " ++ i.chan_title ++ "\n标题: " ++ i.title ++ "\n链接: " ++ i.link
          ++ (if i.pub_date ≠ "" then "\n时间: " ++ i.pub_date else "")
          ++ (if i.description ≠ "" then "\n---\n" ++ i.description else "")
          ++ (if i.extra ≠ "" then "\n额外: " ++ i.extra else ""))) := by
  simp only [_format_items]
  rw [List.map_congr_left (fun a _ => formatOne_eq a)]

/-- C7: filtering is the identity on an empty pattern, retains exactly
the items whose title does not match when the pattern compiles, and fails
soft — returning the input unchanged — when the pattern does not compile
(`re.error`); being a total function, it never raises to the caller. -/
theorem filter_items_spec (cre : String → Option (String → Bool))
    (items : List RSSItem) (pattern : String) :
    (pattern = "" → _filter_items cre items pattern = items)
    ∧ (∀ s, pattern ≠ "" → cre pattern = some s →
        _filter_items cre items pattern = items.filter (fun item => !s item.title))
    ∧ (pattern ≠ "" → cre pattern = none → _filter_items cre items pattern = items) := by
  refine ⟨?_, ?_, ?_⟩
  · intro hp; simp [_filter_items, hp]
  · intro s hp hc; simp [_filter_items, hp, hc]
  · intro hp hc; simp [_filter_items, hp, hc]

/-- A concrete regex collaborator: pattern `[ab` fails to compile, every
other pattern searches for itself as a substring of the title. -/
def creW : String → Option (String → Bool) :=
  fun p => if p = "[ab" then none else some (fun t => strContains t p)

/-- A concrete item titled `abc`. -/
def itemABC : RSSItem :=
  { chan_title := "C", title := "abc", link := "L", description := "",
    pub_date := "", pub_date_timestamp := 1, extra := "" }

/-- Witness for `filter_items_spec`: the empty pattern is the identity,
pattern `b` excludes the matching title `abc`, and the invalid pattern
`[ab` returns the list unchanged. -/
theorem filter_items_spec_witness :
    _filter_items creW [itemABC] "" = [itemABC]
    ∧ _filter_items creW [itemABC] "b" = []
    ∧ _filter_items creW [itemABC] "[ab" = [itemABC] := by
  have h1 := (filter_items_spec creW [itemABC] "").1 rfl
  have h2 := (filter_items_spec creW [itemABC] "b").2.1
    (fun t => strContains t "b") (by decide) rfl
  have h3 := (filter_items_spec creW [itemABC] "[ab").2.2 (by decide) rfl
  refine ⟨h1, ?_, h3⟩
  rw [h2]; decide

/-- C8: filtering is idempotent for every pattern — empty, valid or
invalid — and every regex collaborator: applying `_filter_items` twice
with the same pattern equals applying it once. -/
theorem filter_items_idempotent (cre : String → Option (String → Bool))
    (items : List RSSItem) (pattern : String) :
    _filter_items cre (_filter_items cre items pattern) pattern
      = _filter_items cre items pattern := by
  by_cases hp : pattern = ""
  · simp [_filter_items, hp]
  · cases hc : cre pattern with
    | none => simp [_filter_items, hp, hc]
    | some s => simp [_filter_items, hp, hc, List.filter_filter, Bool.and_self]

/-- C9: the `get` command is effect-free on the store — for every valid
index it returns the store it was given, performs no persistence write,
and every subscription record (watermark, lastLink, cron expression and
filter pattern) reads back exactly as before. -/
theorem get_latest_frame (ue : String → String)
    (cre : String → Option (String → Bool)) (dml mi : Nat)
    (fetchEnv : String → Option Feed) (store : Store) (user : String) (idx : Int)
    (h0 : 0 ≤ idx) (h1 : idx < ((_get_user_subs store user).length : Int)) :
    (get_latest ue cre dml mi fetchEnv store user idx).1 = store
    ∧ (get_latest ue cre dml mi fetchEnv store user idx).2.1 = []
    ∧ ∀ (u2 us2 : String),
        subLookup (get_latest ue cre dml mi fetchEnv store user idx).1 u2 us2
          = subLookup store u2 us2 := by
  have hst : (get_latest ue cre dml mi fetchEnv store user idx).1 = store := by
    simp only [get_latest]
    split
    · rfl
    · split
      · rfl
      · split
        · rfl
        · split
          · rfl
          · rfl
  have hsv : (get_latest ue cre dml mi fetchEnv store user idx).2.1 = [] := by
    simp only [get_latest]
    split
    · rfl
    · split
      · rfl
      · split
        · rfl
        · split
          · rfl
          · rfl
  exact ⟨hst, hsv, fun u2 us2 => by rw [hst]⟩

/-- Witness for `get_latest_frame`: fetching index 0 of the concrete
one-subscription store leaves the store intact and writes nothing. -/
theorem get_latest_frame_witness :
    (0 : Int) ≤ 0
    ∧ (0 : Int) < ((_get_user_subs store150 "user1").length : Int)
    ∧ (get_latest id creNone 200 5 (fun _ => some feedNF) store150 "user1" 0).1 = store150
    ∧ (get_latest id creNone 200 5 (fun _ => some feedNF) store150 "user1" 0).2.1 = [] := by
  have h := get_latest_frame id creNone 200 5 (fun _ => some feedNF) store150 "user1" 0
    (by decide) (by decide)
  exact ⟨by decide, by decide, h.1, h.2.1⟩

/-- C10: strategy resolution is total — being a function it returns a
formatter for every input string — and it returns the default formatter
both when URL parsing fails (the caught exception branch, modelled by
`netlocOpt` returning `none`) and when no registered domain key matches
the lowercased host. -/
theorem get_formatter_total_default (url : String) :
    (netlocOpt url = none → get_formatter url = .default)
    ∧ (∀ d, netlocOpt url = some d →
        (∀ p ∈ FORMATTERS, matchesKey (asciiLower d) p.1 = false) →
        get_formatter url = .default) := by
  constructor
  · intro h; simp [get_formatter, h]
  · intro d hd hall
    simp only [get_formatter, hd]
    exact lookupFormatter_eq_default _ _ hall

/-- Witness for `get_formatter_total_default`: a URL whose authority has
an unbalanced bracket (the stdlib `ValueError` case) and a URL with an
unregistered host both resolve to the default formatter. -/
theorem get_formatter_total_default_witness :
    netlocOpt "http://[bad/x" = none
    ∧ get_formatter "http://[bad/x" = .default
    ∧ netlocOpt urlEx = some "example.com"
    ∧ get_formatter urlEx = .default := by
  refine ⟨(by decide), ?_, (by decide), ?_⟩
  · exact (get_formatter_total_default "http://[bad/x").1 (by decide)
  · exact (get_formatter_total_default urlEx).2 "example.com" (by decide) (by decide)

end MyRSS
